import Mathlib

/-!
Verification of the project classifier, config generators, deploy-output
heuristics and path validation of the `netlify-cli-ai` repository
(`src/app.py`, the web entry point, and `src/netlify_ai.py`, the terminal
wizard).  Python strings are modelled as Lean `String`s, with the string
primitives (`str.lower`, `in`, `str.endswith`, `str.split`, `pathlib.Path.parts`,
`'\n'.join`) given explicit executable models over `List Char`.  File I/O is
modelled by an explicit oracle `String → Option String` (`none` = the read
raises and the caller's `except` clause swallows it).
-/

namespace NetlifyAI

/-! ## String primitives (models of the Python built-ins used by the source) -/

/-- Model of `str.lower` restricted to ASCII case folding (all inputs in the
source's string tests are ASCII keywords/extensions). -/
def lowerChars (l : List Char) : List Char := l.map Char.toLower

/-- Model of `str.lower` on `String`. -/
def lowerStr (s : String) : String := String.mk (lowerChars s.toList)

/-- Model of the Python substring test `pat in l` on character lists. -/
def containsL (pat : List Char) : List Char → Bool
  | [] => pat.isEmpty
  | c :: rest => pat.isPrefixOf (c :: rest) || containsL pat rest

/-- Model of the Python substring test `sub in s`. -/
def containsStr (s sub : String) : Bool := containsL sub.toList s.toList

/-- Model of `s.endswith(suf)`. -/
def endsWithStr (s suf : String) : Bool := suf.toList.isSuffixOf s.toList

/-- Model of `s.split(sep)` for a one-character separator: keeps empty chunks,
produces one more chunk than there are separators. -/
def splitOnChar (sep : Char) : List Char → List (List Char)
  | [] => [[]]
  | c :: rest =>
    if c = sep then [] :: splitOnChar sep rest
    else
      match splitOnChar sep rest with
      | [] => [[c]]
      | g :: gs => (c :: g) :: gs

/-- Python whitespace characters recognised by `str.split()` and `\s`
(ASCII fragment). -/
def isWsC (c : Char) : Bool :=
  (c == ' ') || (c == '\t') || (c == '\n') || (c == '\r') || (c == '\x0B') || (c == '\x0C')

/-- Accumulator worker for `splitWs`. -/
def splitWsAcc (cur : List Char) : List Char → List (List Char)
  | [] => if cur = [] then [] else [cur.reverse]
  | c :: rest =>
    if isWsC c then
      if cur = [] then splitWsAcc [] rest else cur.reverse :: splitWsAcc [] rest
    else splitWsAcc (c :: cur) rest

/-- Model of Python `str.split()` (no argument): splits on whitespace runs and
drops empty tokens. -/
def splitWs (l : List Char) : List (List Char) := splitWsAcc [] l

/-- Last element of a nonempty list given head and tail (models `parts[-1]`). -/
def lastOf (a : α) : List α → α
  | [] => a
  | b :: bs => lastOf b bs

/-- Model of `pathlib.Path(s).parts` for the relative POSIX paths produced by
`os.path.relpath` inside `scan_files`: split on `/`, dropping empty and `.`
components. -/
def pathPartsL (s : String) : List (List Char) :=
  (splitOnChar '/' s.toList).filter (fun p => !(p == []) && !(p == ['.']))

/-- Model of `sep.join` at the character level, for a one-character
separator. -/
def joinSep (sep : Char) : List (List Char) → List Char
  | [] => []
  | [a] => a
  | a :: b :: rest => a ++ sep :: joinSep sep (b :: rest)

/-- Model of `'\n'.join` at the character level. -/
def joinNl : List (List Char) → List Char := joinSep '\n'

/-- Model of `'\n'.join(lines)` on `String` lines. -/
def joinLinesNl (L : List String) : String := String.mk (joinNl (L.map String.toList))

/-- The lines of a rendered text artifact, as the Python `split('\n')` would
produce them. -/
def linesOfStr (s : String) : List (List Char) := splitOnChar '\n' s.toList

/-- Number of lines of `s` that are exactly the text `t` (used to count
generated TOML block headers). -/
def lineCount (s t : String) : Nat := (linesOfStr s).count t.toList

/-- Python truthiness of an optional string (`if x:` is false for `None` and
for the empty string). -/
def strTruthy : Option String → Bool
  | none => false
  | some s => !(s == "")

/-- The payload of an optional string, empty for `None` (only ever read under
`strTruthy`). -/
def orEmpty : Option String → String
  | none => ""
  | some s => s

/-! ## Data model

`ProjectAnalyzer.detect_project_type` builds an `analysis` dictionary; the
structure below carries its logic-bearing keys.  `app.py` additionally stores
the display-only keys `type_name` (a fixed label determined by `type`),
`file_count` (the length of the scanned list) and `path`; these carry no
decision logic and are omitted. -/

structure Analysis where
  type : String
  has_html : Bool
  has_python : Bool
  has_node : Bool
  has_netlify_config : Bool
  has_env_file : Bool
  has_env_example : Bool
  has_gitignore : Bool
  has_requirements : Bool
  has_package_json : Bool
  python_files : List String
  env_vars_needed : List String
  publish_dir : String
  functions_dir : Option String
  build_command : Option String
  deriving Repr, DecidableEq

/-- The freshly initialised `analysis` dictionary (`app.py` 56-75,
`netlify_ai.py` 142-158). -/
def scanInit : Analysis :=
  { type := "static"
    has_html := false
    has_python := false
    has_node := false
    has_netlify_config := false
    has_env_file := false
    has_env_example := false
    has_gitignore := false
    has_requirements := false
    has_package_json := false
    python_files := []
    env_vars_needed := []
    publish_dir := "."
    functions_dir := none
    build_command := none }

/-! ## Project classifier

The classification code of `app.py` (`detect_project_type`, lines 77-126) and
`netlify_ai.py` (lines 160-213) is character-for-character identical (the web
variant additionally sets the display-only `type_name`); it is transcribed
once below and instantiated by both entry-point models. -/

/-- One iteration of the flag-setting scan over the file list
(`app.py` 77-104, `netlify_ai.py` 160-191): every test is against the
lower-cased relative path. -/
def scanStep (a : Analysis) (file : String) : Analysis :=
  let fl := lowerStr file
  { a with
    has_html := a.has_html || endsWithStr fl ".html"
    has_python := a.has_python || endsWithStr fl ".py"
    python_files := if endsWithStr fl ".py" then a.python_files ++ [file] else a.python_files
    has_node := a.has_node || (fl == "package.json")
    has_package_json := a.has_package_json || (fl == "package.json")
    has_netlify_config := a.has_netlify_config || (fl == "netlify.toml")
    has_env_file := a.has_env_file || (fl == ".env")
    has_env_example := a.has_env_example || (fl == ".env.example")
    has_gitignore := a.has_gitignore || (fl == ".gitignore")
    has_requirements := a.has_requirements || (fl == "requirements.txt") }

/-- The qualifying test of the function-directory loop:
`'functions' in py_file.lower() or 'netlify' in py_file.lower()`. -/
def qualB (f : String) : Bool :=
  containsStr (lowerStr f) "functions" || containsStr (lowerStr f) "netlify"

/-- The inner loop of the rule for `functions_dir`
(`for i, part in enumerate(parts): if 'functions' in part.lower(): ... break`):
the path prefix up to and including the first segment containing
`functions`, if any. -/
def functionsPrefixParts : List (List Char) → Option (List (List Char))
  | [] => none
  | p :: rest =>
    if containsL "functions".toList (lowerChars p) then some [p]
    else (functionsPrefixParts rest).map (p :: ·)

/-- Model of `str(Path(*parts))` for a list of path segments (POSIX join). -/
def joinPartsL (ps : List (List Char)) : String := String.mk (joinSep '/' ps)

/-- The per-file body of the `functions_dir` search
(`app.py` 108-117, `netlify_ai.py` 196-205): the first python file whose
lower-cased path contains `functions` or `netlify` sets the type, derives
`functions_dir` from its segments when possible, and breaks the loop. -/
def pyLoop (a : Analysis) : List String → Analysis
  | [] => a
  | py :: rest =>
    if containsStr (lowerStr py) "functions" || containsStr (lowerStr py) "netlify" then
      let a1 := { a with type := "python-functions" }
      match functionsPrefixParts (pathPartsL py) with
      | some pre => { a1 with functions_dir := some (joinPartsL pre) }
      | none => a1
    else pyLoop a rest

/-- The python rules (`app.py` 107-121, `netlify_ai.py` 194-209): the
function-directory loop followed by the bare-python fallback, both guarded by
`has_python`. -/
def pythonStage (a : Analysis) : Analysis :=
  if a.has_python then
    let a1 := pyLoop a a.python_files
    if a1.type == "static" && a1.has_python then { a1 with type := "python-functions" }
    else a1
  else a

/-- The node override (`app.py` 123-126, `netlify_ai.py` 211-213): a
`package.json` wins unconditionally and fixes the build command. -/
def nodeStage (a : Analysis) : Analysis :=
  if a.has_node && a.has_package_json then
    { a with type := "node-project", build_command := some "npm run build" }
  else a

/-- The classification pipeline on a scanned file list, before the
environment-variable inference. -/
def detectCore (files : List String) : Analysis :=
  nodeStage (pythonStage (files.foldl scanStep scanInit))

/-! ## Environment-variable inference

`_detect_env_vars` is identical in the two entry points except for the table
of `(variable, keywords)` pairs: the wizard adds a sixth `API_KEY` row
(`app.py` 133-155, `netlify_ai.py` 221-245).  File reads are modelled by an
oracle `readFile : String → Option String`; `none` models a read that raises
and is swallowed by the `except` clause. -/

/-- The pattern table of `app.py` (lines 136-142). -/
def appEnvPatterns : List (String × List String) :=
  [("OPENAI_API_KEY", ["openai", "gpt", "chatgpt"]),
   ("GOOGLE_API_KEY", ["google", "gemini", "generativeai"]),
   ("ANTHROPIC_API_KEY", ["anthropic", "claude"]),
   ("DATABASE_URL", ["database", "postgres", "mysql", "mongodb"]),
   ("SECRET_KEY", ["secret", "jwt", "session"])]

/-- The pattern table of `netlify_ai.py` (lines 224-231): the five shared rows
plus `API_KEY`. -/
def wizEnvPatterns : List (String × List String) :=
  [("OPENAI_API_KEY", ["openai", "gpt", "chatgpt"]),
   ("GOOGLE_API_KEY", ["google", "gemini", "generativeai"]),
   ("ANTHROPIC_API_KEY", ["anthropic", "claude"]),
   ("DATABASE_URL", ["database", "postgres", "mysql", "mongodb"]),
   ("SECRET_KEY", ["secret", "jwt", "session"]),
   ("API_KEY", ["api_key", "apikey"])]

/-- Model of `set.add`: the accumulator is kept duplicate-free. -/
def insertNew (l : List String) (x : String) : List String :=
  if x ∈ l then l else l ++ [x]

/-- The inner loop over the pattern table for one file's lower-cased
content. -/
def patFold (c : String) (pats : List (String × List String)) (acc : List String) :
    List String :=
  pats.foldl
    (fun acc2 p => if p.2.any (fun kw => containsStr c kw) then insertNew acc2 p.1 else acc2)
    acc

/-- `file.endswith(('.py', '.js', '.ts', '.jsx', '.tsx'))`: the source-code
extension filter (on the original, un-lowered path). -/
def srcExtB (f : String) : Bool :=
  endsWithStr f ".py" || endsWithStr f ".js" || endsWithStr f ".ts" ||
    endsWithStr f ".jsx" || endsWithStr f ".tsx"

/-- The per-file body of `_detect_env_vars`: only source-extension files are
read; a failed read contributes nothing; otherwise the lower-cased content is
run through the pattern table. -/
def envStep (pats : List (String × List String)) (readFile : String → Option String)
    (acc : List String) (file : String) : List String :=
  if srcExtB file then
    match readFile file with
    | some content => patFold (lowerStr content) pats acc
    | none => acc
  else acc

/-- `_detect_env_vars` over a given pattern table: scan each source file's
content (best effort) for keywords and collect the matched variable names as a
set. -/
def detectEnvVarsWith (pats : List (String × List String)) (files : List String)
    (readFile : String → Option String) : List String :=
  files.foldl (envStep pats readFile) []

/-- `app.py`'s `ProjectAnalyzer.detect_project_type` (lines 52-131), given the
scanned file list and the content oracle. -/
def appDetect (files : List String) (readFile : String → Option String) : Analysis :=
  { detectCore files with env_vars_needed := detectEnvVarsWith appEnvPatterns files readFile }

/-- `netlify_ai.py`'s `ProjectAnalyzer.detect_project_type` (lines 138-219). -/
def wizDetect (files : List String) (readFile : String → Option String) : Analysis :=
  { detectCore files with env_vars_needed := detectEnvVarsWith wizEnvPatterns files readFile }

/-! ## Config generators -/

/-- `app.py`'s `ConfigGenerator.generate_netlify_toml` (lines 165-190).
Optional arguments are tested with Python truthiness (`if functions_dir:`),
so `None` and the empty string both suppress their lines. -/
def appGenerateNetlifyToml (publish_dir : String) (functions_dir : Option String)
    (build_command : Option String) (python_version : String) : String :=
  let lines :=
    ["[build]"]
    ++ (if strTruthy functions_dir then
          ["  functions = \"" ++ orEmpty functions_dir ++ "\""] else [])
    ++ ["  publish = \"" ++ publish_dir ++ "\""]
    ++ (if strTruthy build_command then
          ["  command = \"" ++ orEmpty build_command ++ "\""] else [])
    ++ (if strTruthy functions_dir then
          ["", "[build.environment]", "  PYTHON_VERSION = \"" ++ python_version ++ "\"",
           "", "[[redirects]]", "  from = \"/api/*\"",
           "  to = \"/.netlify/functions/:splat\"", "  status = 200"] else [])
  joinLinesNl lines ++ "\n"

/-- `netlify_ai.py`'s `ConfigGenerator.generate_netlify_toml` (lines 296-327):
the runtime pin is a `[functions]` section with a lower-case key, emitted only
when the analysis found python files. -/
def wizGenerateNetlifyToml (has_python : Bool) (publish_dir : String)
    (functions_dir : Option String) (build_command : Option String)
    (python_version : String) : String :=
  let lines :=
    ["[build]"]
    ++ (if strTruthy functions_dir then
          ["  functions = \"" ++ orEmpty functions_dir ++ "\""] else [])
    ++ ["  publish = \"" ++ publish_dir ++ "\""]
    ++ (if strTruthy build_command then
          ["  command = \"" ++ orEmpty build_command ++ "\""] else [])
    ++ (if has_python && strTruthy functions_dir then
          ["", "[functions]", "  python_version = \"" ++ python_version ++ "\""] else [])
    ++ (if strTruthy functions_dir then
          ["", "[[redirects]]", "  from = \"/api/*\"",
           "  to = \"/.netlify/functions/:splat\"", "  status = 200"] else [])
  joinLinesNl lines ++ "\n"

/-- `app.py`'s `ConfigGenerator.generate_gitignore` (lines 192-218), a fixed
literal. -/
def appGenerateGitignore : String :=
  "# 環境變數（含敏感資訊）\n.env\n.env.local\n.env.production\n\n# Netlify 本地快取\n.netlify/\n\n# Python\n__pycache__/\n*.py[cod]\nvenv/\n.venv/\n\n# Node.js\nnode_modules/\n\n# 系統檔案\n.DS_Store\nThumbs.db\n\n# IDE\n.vscode/\n.idea/\n"

/-- `netlify_ai.py`'s `ConfigGenerator.generate_gitignore` (lines 329-359): a
longer fixed literal (extra `*$py.class`, `*.egg-info/`, `*.swp`, `*.swo`
patterns). -/
def wizGenerateGitignore : String :=
  "# 環境變數（含敏感資訊）\n.env\n.env.local\n.env.production\n\n# Netlify 本地快取\n.netlify/\n\n# Python\n__pycache__/\n*.py[cod]\n*$py.class\nvenv/\n.venv/\n*.egg-info/\n\n# Node.js\nnode_modules/\n\n# 系統檔案\n.DS_Store\nThumbs.db\n\n# IDE\n.vscode/\n.idea/\n*.swp\n*.swo\n"

/-- The shared body of `generate_env_example`, parameterised by the
description table. -/
def generateEnvExampleWith (descriptions : List (String × String))
    (env_vars : List String) : String :=
  let lines :=
    ["# 環境變數範例", "# 複製此檔案為 .env 並填入真實的值", ""]
    ++ env_vars.foldl
        (fun acc v =>
          acc
          ++ (match descriptions.lookup v with
              | some d => [d]
              | none => [])
          ++ [v ++ "=your_" ++ lowerStr v ++ "_here", ""])
        []
    ++ ["# 注意：永遠不要將 .env 檔案上傳到 Git！"]
  joinLinesNl lines

/-- The description table of `app.py`'s `generate_env_example`
(lines 224-230). -/
def appEnvDescriptions : List (String × String) :=
  [("OPENAI_API_KEY", "# OpenAI API Key - https://platform.openai.com/api-keys"),
   ("GOOGLE_API_KEY", "# Google API Key (Gemini) - https://aistudio.google.com/app/apikey"),
   ("ANTHROPIC_API_KEY", "# Anthropic API Key - https://console.anthropic.com/"),
   ("DATABASE_URL", "# 資料庫連線字串"),
   ("SECRET_KEY", "# 應用程式密鑰")]

/-- The description table of `netlify_ai.py`'s `generate_env_example`
(lines 365-372): adds an `API_KEY` row. -/
def wizEnvDescriptions : List (String × String) :=
  [("OPENAI_API_KEY", "# OpenAI API Key - https://platform.openai.com/api-keys"),
   ("GOOGLE_API_KEY", "# Google API Key (Gemini) - https://aistudio.google.com/app/apikey"),
   ("ANTHROPIC_API_KEY", "# Anthropic API Key - https://console.anthropic.com/"),
   ("DATABASE_URL", "# 資料庫連線字串"),
   ("SECRET_KEY", "# 應用程式密鑰"),
   ("API_KEY", "# API 金鑰")]

/-- `app.py`'s `ConfigGenerator.generate_env_example` (lines 220-239). -/
def appGenerateEnvExample (env_vars : List String) : String :=
  generateEnvExampleWith appEnvDescriptions env_vars

/-- `netlify_ai.py`'s `ConfigGenerator.generate_env_example`
(lines 361-382). -/
def wizGenerateEnvExample (env_vars : List String) : String :=
  generateEnvExampleWith wizEnvDescriptions env_vars

/-- `app.py`'s `ConfigGenerator.generate_requirements` (lines 241-255). -/
def appGenerateRequirements (env_vars : List String) : String :=
  let packages :=
    (if "OPENAI_API_KEY" ∈ env_vars then ["openai"] else [])
    ++ (if "GOOGLE_API_KEY" ∈ env_vars then ["google-generativeai"] else [])
    ++ (if "ANTHROPIC_API_KEY" ∈ env_vars then ["anthropic"] else [])
  let packages := if packages = [] then ["# 在此加入你需要的 Python 套件"] else packages
  joinLinesNl packages ++ "\n"

/-- `netlify_ai.py`'s `ConfigGenerator.generate_requirements` (lines 384-403);
the env-var list it reads from `self.analysis['env_vars_needed']` is passed
explicitly. -/
def wizGenerateRequirements (env_vars : List String) : String :=
  let packages :=
    (if "OPENAI_API_KEY" ∈ env_vars then ["openai"] else [])
    ++ (if "GOOGLE_API_KEY" ∈ env_vars then ["google-generativeai"] else [])
    ++ (if "ANTHROPIC_API_KEY" ∈ env_vars then ["anthropic"] else [])
  let packages := if packages = [] then ["# 在此加入你需要的 Python 套件"] else packages
  joinLinesNl packages ++ "\n"

/-! ## Deploy-output interpretation

`Deployer.run_command` packages the external process as
`{'success': returncode == 0, 'stdout': ..., 'stderr': ...}`; the structure
below is that record. -/

structure DeployResult where
  success : Bool
  stdout : String
  stderr : String
  deriving Repr, DecidableEq

/-- Model of `re.findall(r'https://[^\s]+netlify[^\s]*', line)` restricted to
its first match: scan for a position starting with `https://`; the pattern
matches there exactly when the maximal non-whitespace run after the scheme
contains `netlify` at offset at least one, and by greediness the match is then
the scheme plus that whole run; otherwise scanning resumes one character
later. -/
def findNetlifyUrl : List Char → Option (List Char)
  | [] => none
  | c :: rest =>
    if "https://".toList.isPrefixOf (c :: rest) then
      let run := ((c :: rest).drop 8).takeWhile (fun ch => !(isWsC ch))
      if containsL "netlify".toList (run.drop 1) then some ("https://".toList ++ run)
      else findNetlifyUrl rest
    else findNetlifyUrl rest

/-- One line of the URL-extraction loop in the `/api/deploy` route
(`app.py` 809-825), threading the mutable `(url, deploy_url)` pair. -/
def urlStep (s : Option String × Option String) (line : List Char) :
    Option String × Option String :=
  if containsL "website".toList (lowerChars line)
      && containsL "url".toList (lowerChars line) then
    match splitWs line with
    | [] => s
    | t :: ts => (some (String.mk (lastOf t ts)), s.2)
  else if containsL "deploy".toList (lowerChars line)
      && containsL "url".toList (lowerChars line) then
    match splitWs line with
    | [] => s
    | t :: ts => (s.1, some (String.mk (lastOf t ts)))
  else if containsL "https://".toList line && containsL "netlify".toList line then
    match findNetlifyUrl line with
    | some u => (some (String.mk u), s.2)
    | none => s
  else s

/-- The success/URL decision of the `/api/deploy` route (`app.py` 802-844):
`final_url = url or deploy_url`; success when the exit code was zero or a URL
was extracted; the `unsettled top-level await` warning check re-affirms
success when a URL is present. -/
def deployOutcome (res : DeployResult) : Bool × Option String :=
  let allOutput := res.stdout ++ "\n" ++ res.stderr
  let st := (splitOnChar '\n' allOutput.toList).foldl urlStep (none, none)
  let finalUrl := st.1 <|> st.2
  let isSuccess := res.success || finalUrl.isSome
  let isSuccess :=
    if containsStr res.stderr "unsettled top-level await" && finalUrl.isSome then true
    else isSuccess
  (isSuccess, finalUrl)

/-- The inner line scan of `Deployer.deploy_preview` in `netlify_ai.py`
(lines 506-509): the first line containing a draft-URL phrase yields its last
token. -/
def wizPreviewScan : List (List Char) → Option String
  | [] => none
  | l :: ls =>
    if containsL "Website Draft URL".toList l || containsL "Website draft URL".toList l then
      match splitWs l with
      | [] => none
      | t :: ts => some (String.mk (lastOf t ts))
    else wizPreviewScan ls

/-- `netlify_ai.py`'s `Deployer.deploy_preview` (lines 493-516): a URL is
reported only when the declared exit code is zero; otherwise the function
prints the error and returns `None`. -/
def wizDeployPreview (res : DeployResult) : Option String :=
  if res.success then wizPreviewScan (splitOnChar '\n' res.stdout.toList)
  else none

/-! ## Root-path validation and the scanner

`scan_files` walks the root with `os.walk`, which silently yields nothing for
a missing or non-directory root; the `exists`/`is_dir` rejections live in the
callers (`app.py` `/api/analyze`, lines 497-501, and `netlify_ai.py` `main`,
lines 604-611).  The file system is abstracted to the facts those functions
consult. -/

structure FileSystem where
  pathStr : String
  rootExists : Bool
  rootIsDir : Bool
  walk : List String
  readFile : String → Option String

/-- `ProjectAnalyzer.scan_files` (`app.py` 39-50, `netlify_ai.py` 123-136):
the walk order relative paths; `os.walk` produces no entries when the root is
missing or not a directory, so the function then returns the empty list
without raising. -/
def scanFiles (fs : FileSystem) : List String :=
  if fs.rootExists && fs.rootIsDir then fs.walk else []

/-- The `/api/analyze` route of `app.py` (lines 491-512): path validation
precedes construction of the analyzer; failures surface as structured
errors. -/
def appAnalyzeRoute (fs : FileSystem) : Except String Analysis :=
  if !fs.rootExists then Except.error ("路徑不存在: " ++ fs.pathStr)
  else if !fs.rootIsDir then Except.error ("這不是資料夾: " ++ fs.pathStr)
  else Except.ok (appDetect (scanFiles fs) fs.readFile)

/-- The path validation of `netlify_ai.py`'s `main` (lines 603-611), which
exits with an error message before any analysis. -/
def wizPathCheck (fs : FileSystem) : Except String Unit :=
  if !fs.rootExists then Except.error ("路徑不存在: " ++ fs.pathStr)
  else if !fs.rootIsDir then Except.error ("這不是一個資料夾: " ++ fs.pathStr)
  else Except.ok ()

/-- Whether a result is a success (`Except.ok`). -/
def exceptIsOk : Except ε α → Bool
  | Except.ok _ => true
  | Except.error _ => false

/-- A deployed-URL line actually recognised by the `/api/deploy` extraction
loop: either URL-phrase heuristic, or an `https://` URL whose regex pattern
(`https://[^\s]+netlify[^\s]*`, i.e. at least one character between the
scheme and `netlify`) has a match. -/
def recognizedB (line : List Char) : Bool :=
  (containsL "website".toList (lowerChars line) && containsL "url".toList (lowerChars line))
  || (containsL "deploy".toList (lowerChars line)
      && containsL "url".toList (lowerChars line))
  || (containsL "https://".toList line && containsL "netlify".toList line
      && (findNetlifyUrl line).isSome)

/-! ## Lemmas about the flag-setting scan -/

theorem scanFold_type (files : List String) :
    ∀ a : Analysis, (files.foldl scanStep a).type = a.type := by
  induction files with
  | nil => intro a; rfl
  | cons f fs ih => intro a; simpa [scanStep] using ih _

theorem scanFold_functions_dir (files : List String) :
    ∀ a : Analysis, (files.foldl scanStep a).functions_dir = a.functions_dir := by
  induction files with
  | nil => intro a; rfl
  | cons f fs ih => intro a; simpa [scanStep] using ih _

theorem scanFold_build_command (files : List String) :
    ∀ a : Analysis, (files.foldl scanStep a).build_command = a.build_command := by
  induction files with
  | nil => intro a; rfl
  | cons f fs ih => intro a; simpa [scanStep] using ih _

theorem scanFold_has_node (files : List String) :
    ∀ a : Analysis,
      (files.foldl scanStep a).has_node
        = (a.has_node || files.any (fun f => lowerStr f == "package.json")) := by
  induction files with
  | nil => intro a; simp
  | cons f fs ih =>
    intro a
    simp only [List.foldl_cons, List.any_cons]
    rw [ih]
    simp [scanStep, Bool.or_assoc]

theorem scanFold_has_package_json (files : List String) :
    ∀ a : Analysis,
      (files.foldl scanStep a).has_package_json
        = (a.has_package_json || files.any (fun f => lowerStr f == "package.json")) := by
  induction files with
  | nil => intro a; simp
  | cons f fs ih =>
    intro a
    simp only [List.foldl_cons, List.any_cons]
    rw [ih]
    simp [scanStep, Bool.or_assoc]

theorem scanFold_has_python (files : List String) :
    ∀ a : Analysis,
      (files.foldl scanStep a).has_python
        = (a.has_python || files.any (fun f => endsWithStr (lowerStr f) ".py")) := by
  induction files with
  | nil => intro a; simp
  | cons f fs ih =>
    intro a
    simp only [List.foldl_cons, List.any_cons]
    rw [ih]
    simp [scanStep, Bool.or_assoc]

theorem scanFold_python_files (files : List String) :
    ∀ a : Analysis,
      (files.foldl scanStep a).python_files
        = a.python_files ++ files.filter (fun f => endsWithStr (lowerStr f) ".py") := by
  induction files with
  | nil => intro a; simp
  | cons f fs ih =>
    intro a
    simp only [List.foldl_cons]
    rw [ih]
    by_cases h : endsWithStr (lowerStr f) ".py" <;> simp [scanStep, h]

/-! ## Lemmas about the python / node stages -/

theorem pyLoop_has_python (pys : List String) :
    ∀ a : Analysis, (pyLoop a pys).has_python = a.has_python := by
  induction pys with
  | nil => intro a; rfl
  | cons p ps ih =>
    intro a
    by_cases h : containsStr (lowerStr p) "functions" || containsStr (lowerStr p) "netlify"
    · simp only [pyLoop, h, if_pos]
      cases functionsPrefixParts (pathPartsL p) <;> rfl
    · simpa [pyLoop, h] using ih a

theorem pyLoop_has_node (pys : List String) :
    ∀ a : Analysis, (pyLoop a pys).has_node = a.has_node := by
  induction pys with
  | nil => intro a; rfl
  | cons p ps ih =>
    intro a
    by_cases h : containsStr (lowerStr p) "functions" || containsStr (lowerStr p) "netlify"
    · simp only [pyLoop, h, if_pos]
      cases functionsPrefixParts (pathPartsL p) <;> rfl
    · simpa [pyLoop, h] using ih a

theorem pyLoop_has_package_json (pys : List String) :
    ∀ a : Analysis, (pyLoop a pys).has_package_json = a.has_package_json := by
  induction pys with
  | nil => intro a; rfl
  | cons p ps ih =>
    intro a
    by_cases h : containsStr (lowerStr p) "functions" || containsStr (lowerStr p) "netlify"
    · simp only [pyLoop, h, if_pos]
      cases functionsPrefixParts (pathPartsL p) <;> rfl
    · simpa [pyLoop, h] using ih a

theorem pyLoop_build_command (pys : List String) :
    ∀ a : Analysis, (pyLoop a pys).build_command = a.build_command := by
  induction pys with
  | nil => intro a; rfl
  | cons p ps ih =>
    intro a
    by_cases h : containsStr (lowerStr p) "functions" || containsStr (lowerStr p) "netlify"
    · simp only [pyLoop, h, if_pos]
      cases functionsPrefixParts (pathPartsL p) <;> rfl
    · simpa [pyLoop, h] using ih a

theorem pyLoop_of_find?_none (pys : List String) :
    ∀ a : Analysis, pys.find? qualB = none → pyLoop a pys = a := by
  induction pys with
  | nil => intro a _; rfl
  | cons p ps ih =>
    intro a h
    have hp : qualB p = false := by
      cases hq : qualB p
      · rfl
      · simp [List.find?_cons_of_pos _ hq] at h
    have hps : ps.find? qualB = none := by
      rwa [List.find?_cons_of_neg _ (by simp [hp])] at h
    have hp' : (containsStr (lowerStr p) "functions"
        || containsStr (lowerStr p) "netlify") = false := hp
    simp only [pyLoop, hp', Bool.false_eq_true, if_false]
    exact ih a hps

theorem pyLoop_of_find?_some (pys : List String) (py : String) :
    ∀ a : Analysis, pys.find? qualB = some py →
      pyLoop a pys
        = match functionsPrefixParts (pathPartsL py) with
          | some pre =>
            { a with type := "python-functions", functions_dir := some (joinPartsL pre) }
          | none => { a with type := "python-functions" } := by
  induction pys with
  | nil => intro a h; simp at h
  | cons p ps ih =>
    intro a h
    cases hq : qualB p
    · have hps : ps.find? qualB = some py := by
        rwa [List.find?_cons_of_neg _ (by simp [hq])] at h
      have hq' : (containsStr (lowerStr p) "functions"
          || containsStr (lowerStr p) "netlify") = false := hq
      simp only [pyLoop, hq', Bool.false_eq_true, if_false]
      exact ih a hps
    · have hpy : p = py := by
        rw [List.find?_cons_of_pos _ hq] at h
        exact Option.some.inj h
      subst hpy
      have hq' : (containsStr (lowerStr p) "functions"
          || containsStr (lowerStr p) "netlify") = true := hq
      simp only [pyLoop, hq', if_true]

theorem pythonStage_has_node (a : Analysis) : (pythonStage a).has_node = a.has_node := by
  simp only [pythonStage]
  split
  · split <;> simp [pyLoop_has_node]
  · rfl

theorem pythonStage_has_package_json (a : Analysis) :
    (pythonStage a).has_package_json = a.has_package_json := by
  simp only [pythonStage]
  split
  · split <;> simp [pyLoop_has_package_json]
  · rfl

theorem pythonStage_has_python (a : Analysis) :
    (pythonStage a).has_python = a.has_python := by
  simp only [pythonStage]
  split
  · split <;> simp [pyLoop_has_python]
  · rfl

theorem nodeStage_type_of_node (a : Analysis) (h1 : a.has_node = true)
    (h2 : a.has_package_json = true) :
    (nodeStage a).type = "node-project" ∧ (nodeStage a).build_command = some "npm run build" := by
  unfold nodeStage
  rw [h1, h2]
  exact ⟨rfl, rfl⟩

theorem nodeStage_skip (a : Analysis) (h : (a.has_node && a.has_package_json) = false) :
    nodeStage a = a := by
  unfold nodeStage
  rw [h]
  rfl

theorem nodeStage_functions_dir (a : Analysis) :
    (nodeStage a).functions_dir = a.functions_dir := by
  unfold nodeStage
  split <;> rfl

theorem nodeStage_has_python (a : Analysis) : (nodeStage a).has_python = a.has_python := by
  unfold nodeStage
  split <;> rfl

theorem nodeStage_type (a : Analysis) :
    (nodeStage a).type = if a.has_node && a.has_package_json then "node-project" else a.type := by
  unfold nodeStage
  split <;> simp_all

theorem pyfn_ne_static : (("python-functions" : String) == "static") = false := by decide

/-- The python rules when no python file is present: no change. -/
theorem pythonStage_no_python (a : Analysis) (hp : a.has_python = false) :
    pythonStage a = a := by
  simp [pythonStage, hp]

/-- The python rules when python files exist but none qualifies: only the
bare-python fallback fires. -/
theorem pythonStage_none_case (a : Analysis) (hp : a.has_python = true)
    (htype : a.type = "static") (hf : a.python_files.find? qualB = none) :
    pythonStage a = { a with type := "python-functions" } := by
  simp only [pythonStage, hp, if_true]
  rw [pyLoop_of_find?_none _ _ hf]
  simp [htype, hp]

/-- The python rules when the first qualifying file has a `functions` segment:
type and directory are both set. -/
theorem pythonStage_some_some (a : Analysis) (py : String) (pre : List (List Char))
    (hp : a.has_python = true) (hf : a.python_files.find? qualB = some py)
    (hpp : functionsPrefixParts (pathPartsL py) = some pre) :
    pythonStage a
      = { a with type := "python-functions", functions_dir := some (joinPartsL pre) } := by
  simp only [pythonStage, hp, if_true]
  rw [pyLoop_of_find?_some _ py _ hf]
  simp [hpp, pyfn_ne_static, hp]

/-- The python rules when the first qualifying file matches only via
`netlify`: the type is set but `functions_dir` is left unchanged. -/
theorem pythonStage_some_none (a : Analysis) (py : String)
    (hp : a.has_python = true) (hf : a.python_files.find? qualB = some py)
    (hpp : functionsPrefixParts (pathPartsL py) = none) :
    pythonStage a = { a with type := "python-functions" } := by
  simp only [pythonStage, hp, if_true]
  rw [pyLoop_of_find?_some _ py _ hf]
  simp [hpp, pyfn_ne_static, hp]

/-- If no segment contains `functions`, the directory search fails. -/
theorem fpp_none (l : List (List Char))
    (h : ∀ p ∈ l, containsL "functions".toList (lowerChars p) = false) :
    functionsPrefixParts l = none := by
  induction l with
  | nil => rfl
  | cons p ps ih =>
    have hp := h p (List.mem_cons_self p ps)
    simp only [functionsPrefixParts, hp, Bool.false_eq_true, if_false]
    rw [ih (fun q hq => h q (List.mem_cons_of_mem _ hq))]
    rfl

/-- The last element of a nonempty list does not depend on the default
head. -/
theorem lastOf_irrel (a b : α) (l : List α) (h : l ≠ []) : lastOf a l = lastOf b l := by
  cases l with
  | nil => exact absurd rfl h
  | cons c cs => rfl

/-- A successful directory search returns a nonempty prefix of the segment
list whose last segment is the first one containing `functions`. -/
theorem fpp_some_struct (l : List (List Char)) (pre : List (List Char))
    (h : functionsPrefixParts l = some pre) :
    pre ≠ [] ∧ pre <+: l
      ∧ containsL "functions".toList (lowerChars (lastOf [] pre)) = true
      ∧ ∀ q ∈ pre.dropLast, containsL "functions".toList (lowerChars q) = false := by
  induction l generalizing pre with
  | nil => simp [functionsPrefixParts] at h
  | cons p ps ih =>
    by_cases hc : containsL "functions".toList (lowerChars p) = true
    · simp only [functionsPrefixParts, hc, if_true] at h
      have hpre : pre = [p] := (Option.some.inj h).symm
      subst hpre
      exact ⟨by simp, ⟨ps, rfl⟩, hc, by simp⟩
    · have hc' : containsL "functions".toList (lowerChars p) = false := by
        simpa using hc
      simp only [functionsPrefixParts, hc', Bool.false_eq_true, if_false] at h
      cases hps : functionsPrefixParts ps with
      | none => rw [hps] at h; simp at h
      | some pre' =>
        rw [hps] at h
        simp only [Option.map_some'] at h
        have hpre : pre = p :: pre' := (Option.some.inj h).symm
        subst hpre
        obtain ⟨hne, hpfx, hlast, hdrop⟩ := ih pre' hps
        refine ⟨by simp, ?_, ?_, ?_⟩
        · obtain ⟨t, ht⟩ := hpfx
          exact ⟨t, by rw [List.cons_append, ht]⟩
        · cases pre' with
          | nil => exact absurd rfl hne
          | cons b bs => exact hlast
        · intro q hq
          cases pre' with
          | nil => exact absurd rfl hne
          | cons b bs =>
            rw [List.dropLast_cons₂] at hq
            rcases List.mem_cons.mp hq with hq | hq
            · rw [hq]; exact hc'
            · exact hdrop q hq

/-! ## Claim theorems -/

/-- C1: every scanned file list containing an entry that lower-cases to
`package.json` is classified `node-project` with the fixed default build
command `npm run build`, in both entry points, regardless of any python
evidence — the node override runs last. -/
theorem C1_package_json_forces_node (files : List String) (r : String → Option String)
    (h : ∃ f ∈ files, lowerStr f = "package.json") :
    (appDetect files r).type = "node-project"
      ∧ (appDetect files r).build_command = some "npm run build"
      ∧ (wizDetect files r).type = "node-project"
      ∧ (wizDetect files r).build_command = some "npm run build" := by
  obtain ⟨f, hf, hl⟩ := h
  have hany : files.any (fun f => lowerStr f == "package.json") = true := by
    rw [List.any_eq_true]
    exact ⟨f, hf, by simp [hl]⟩
  have hnode : (files.foldl scanStep scanInit).has_node = true := by
    rw [scanFold_has_node, hany]; rfl
  have hpkg : (files.foldl scanStep scanInit).has_package_json = true := by
    rw [scanFold_has_package_json, hany]; rfl
  have hcore := nodeStage_type_of_node (pythonStage (files.foldl scanStep scanInit))
    (by rw [pythonStage_has_node]; exact hnode)
    (by rw [pythonStage_has_package_json]; exact hpkg)
  exact ⟨hcore.1, hcore.2, hcore.1, hcore.2⟩

/-- C2 counterexample: a file list with both a python file under `functions`
and a `package.json` ends with `type = node-project` while `functions_dir`
is still set — the node override never clears it, violating the claimed
invariant. -/
theorem C2_functions_dir_counterexample :
    (appDetect ["functions/api.py", "package.json"] (fun _ => none)).functions_dir
        = some "functions"
      ∧ (appDetect ["functions/api.py", "package.json"] (fun _ => none)).type
        = "node-project"
      ∧ (wizDetect ["functions/api.py", "package.json"] (fun _ => none)).functions_dir
        = some "functions"
      ∧ (wizDetect ["functions/api.py", "package.json"] (fun _ => none)).type
        = "node-project" := by
  refine ⟨?_, ?_, ?_, ?_⟩ <;> rfl

/-- C2 amended: `functions_dir` is non-`None` only when python files were
found and the type ended as `python-functions` or as `node-project` (the node
override changes the type but leaves `functions_dir` set). -/
theorem C2_functions_dir_origin (files : List String) (r : String → Option String)
    (h : (appDetect files r).functions_dir.isSome = true) :
    (appDetect files r).has_python = true
      ∧ ((appDetect files r).type = "python-functions"
          ∨ (appDetect files r).type = "node-project") := by
  have hS1 : (files.foldl scanStep scanInit).functions_dir = none := by
    rw [scanFold_functions_dir]; rfl
  have hS2 : (files.foldl scanStep scanInit).type = "static" := by
    rw [scanFold_type]; rfl
  have hdir : (appDetect files r).functions_dir
      = (pythonStage (files.foldl scanStep scanInit)).functions_dir := by
    show (detectCore files).functions_dir = _
    unfold detectCore
    exact nodeStage_functions_dir _
  have hpy : (appDetect files r).has_python
      = (pythonStage (files.foldl scanStep scanInit)).has_python := by
    show (detectCore files).has_python = _
    unfold detectCore
    exact nodeStage_has_python _
  by_cases hp : (files.foldl scanStep scanInit).has_python
  · cases hf : (files.foldl scanStep scanInit).python_files.find? qualB with
    | none =>
      rw [pythonStage_none_case _ hp hS2 hf] at hdir
      rw [hdir, hS1] at h
      exact absurd h (by simp)
    | some py =>
      cases hpp : functionsPrefixParts (pathPartsL py) with
      | none =>
        rw [pythonStage_some_none _ py hp hf hpp] at hdir
        rw [hdir, hS1] at h
        exact absurd h (by simp)
      | some pre =>
        have hPval := pythonStage_some_some _ py pre hp hf hpp
        constructor
        · rw [hpy, pythonStage_has_python]
          exact hp
        · have htypeP : (pythonStage (files.foldl scanStep scanInit)).type
              = "python-functions" := by rw [hPval]
          have htype : (appDetect files r).type
              = if (pythonStage (files.foldl scanStep scanInit)).has_node
                    && (pythonStage (files.foldl scanStep scanInit)).has_package_json
                then "node-project"
                else "python-functions" := by
            rw [← htypeP]
            exact nodeStage_type _
          rw [htype]
          split
          · exact Or.inr rfl
          · exact Or.inl rfl
  · rw [pythonStage_no_python _ (by simpa using hp), hS1] at hdir
    rw [hdir] at h
    exact absurd h (by simp)

/-- Witness for the amended C2 at a list whose `functions_dir` is set. -/
theorem C2_functions_dir_origin_witness :
    (appDetect ["functions/api.py"] (fun _ => none)).has_python = true
      ∧ ((appDetect ["functions/api.py"] (fun _ => none)).type = "python-functions"
          ∨ (appDetect ["functions/api.py"] (fun _ => none)).type = "node-project") :=
  C2_functions_dir_origin ["functions/api.py"] (fun _ => none) (by decide)

theorem noNode_of_no_pkg (files : List String)
    (hpkg : ∀ f ∈ files, ¬ lowerStr f = "package.json") :
    ((files.foldl scanStep scanInit).has_node
      && (files.foldl scanStep scanInit).has_package_json) = false := by
  have h1 : files.any (fun f => lowerStr f == "package.json") = false := by
    rw [List.any_eq_false]
    intro f hf
    simp [hpkg f hf]
  rw [scanFold_has_node, scanFold_has_package_json]
  simp [h1, scanInit]

theorem has_python_of_filter_find? (files : List String) (py : String)
    (hfind : (files.filter (fun f => endsWithStr (lowerStr f) ".py")).find? qualB = some py) :
    (files.foldl scanStep scanInit).has_python = true := by
  have hmem := List.mem_of_find?_eq_some hfind
  have hm := List.mem_filter.mp hmem
  rw [scanFold_has_python]
  have hany : files.any (fun f => endsWithStr (lowerStr f) ".py") = true :=
    List.any_eq_true.mpr ⟨py, hm.1, hm.2⟩
  simp [hany]

theorem scan_python_files_eq (files : List String) :
    (files.foldl scanStep scanInit).python_files
      = files.filter (fun f => endsWithStr (lowerStr f) ".py") := by
  rw [scanFold_python_files]
  rfl

/-- C4 counterexample: the list `["netlify/app.py", "src/functions/f.py"]`
contains a python file whose path contains `functions` and no `package.json`,
yet classification leaves `functions_dir = None`: the earlier python file
matches the loop's `netlify` alternative first, the loop breaks there, and no
`functions` segment is ever found. -/
theorem C4_first_qualifying_counterexample :
    "src/functions/f.py" ∈ (["netlify/app.py", "src/functions/f.py"] : List String)
      ∧ endsWithStr (lowerStr "src/functions/f.py") ".py" = true
      ∧ containsStr (lowerStr "src/functions/f.py") "functions" = true
      ∧ (∀ f ∈ (["netlify/app.py", "src/functions/f.py"] : List String),
          ¬ lowerStr f = "package.json")
      ∧ (appDetect ["netlify/app.py", "src/functions/f.py"] (fun _ => none)).type
          = "python-functions"
      ∧ (appDetect ["netlify/app.py", "src/functions/f.py"] (fun _ => none)).functions_dir
          = none := by
  decide

/-- C4 amended: with no `package.json` present, the python scan stops at the
first python file whose lower-cased path contains `functions` or `netlify`
(first match wins); when that file's segments contain a `functions` segment,
the type is `python-functions` and `functions_dir` is exactly the path prefix
up to and including the first such segment, in both entry points. -/
theorem C4_functions_dir_from_first_qualifying (files : List String)
    (r : String → Option String) (py : String) (pre : List (List Char))
    (hpkg : ∀ f ∈ files, ¬ lowerStr f = "package.json")
    (hfind : (files.filter (fun f => endsWithStr (lowerStr f) ".py")).find? qualB = some py)
    (hpre : functionsPrefixParts (pathPartsL py) = some pre) :
    (appDetect files r).type = "python-functions"
      ∧ (appDetect files r).functions_dir = some (joinPartsL pre)
      ∧ (wizDetect files r).type = "python-functions"
      ∧ (wizDetect files r).functions_dir = some (joinPartsL pre)
      ∧ pre ≠ []
      ∧ pre <+: pathPartsL py
      ∧ containsL "functions".toList (lowerChars (lastOf [] pre)) = true
      ∧ (∀ q ∈ pre.dropLast, containsL "functions".toList (lowerChars q) = false) := by
  have hp := has_python_of_filter_find? files py hfind
  have hP := pythonStage_some_some (files.foldl scanStep scanInit) py pre hp
    (by rw [scan_python_files_eq]; exact hfind) hpre
  have hskip : nodeStage (pythonStage (files.foldl scanStep scanInit))
      = pythonStage (files.foldl scanStep scanInit) := by
    refine nodeStage_skip _ ?_
    rw [hP]
    exact noNode_of_no_pkg files hpkg
  have htype : (detectCore files).type = "python-functions" := by
    unfold detectCore
    rw [hskip, hP]
  have hdir : (detectCore files).functions_dir = some (joinPartsL pre) := by
    unfold detectCore
    rw [hskip, hP]
  obtain ⟨h1, h2, h3, h4⟩ := fpp_some_struct _ pre hpre
  exact ⟨htype, hdir, htype, hdir, h1, h2, h3, h4⟩

/-- Witness for the amended C4 at the spec's scenario
`["netlify/functions/handler.py"]`. -/
theorem C4_functions_dir_from_first_qualifying_witness :
    (appDetect ["netlify/functions/handler.py"] (fun _ => none)).type = "python-functions"
      ∧ (appDetect ["netlify/functions/handler.py"] (fun _ => none)).functions_dir
          = some (joinPartsL ["netlify".toList, "functions".toList])
      ∧ (wizDetect ["netlify/functions/handler.py"] (fun _ => none)).type = "python-functions"
      ∧ (wizDetect ["netlify/functions/handler.py"] (fun _ => none)).functions_dir
          = some (joinPartsL ["netlify".toList, "functions".toList])
      ∧ (["netlify".toList, "functions".toList] : List (List Char)) ≠ []
      ∧ (["netlify".toList, "functions".toList] : List (List Char))
          <+: pathPartsL "netlify/functions/handler.py"
      ∧ containsL "functions".toList
          (lowerChars (lastOf [] ["netlify".toList, "functions".toList])) = true
      ∧ (∀ q ∈ (["netlify".toList, "functions".toList] : List (List Char)).dropLast,
          containsL "functions".toList (lowerChars q) = false) :=
  C4_functions_dir_from_first_qualifying ["netlify/functions/handler.py"] (fun _ => none)
    "netlify/functions/handler.py" ["netlify".toList, "functions".toList]
    (by decide) (by decide) (by decide)

/-- C10: with no `package.json`, when the first qualifying python file matches
only via `netlify` — none of its path segments contains `functions` — the
type still becomes `python-functions` while `functions_dir` stays `None`, in
both entry points. -/
theorem C10_netlify_only_match (files : List String) (r : String → Option String)
    (py : String)
    (hpkg : ∀ f ∈ files, ¬ lowerStr f = "package.json")
    (hfind : (files.filter (fun f => endsWithStr (lowerStr f) ".py")).find? qualB = some py)
    (hseg : ∀ part ∈ pathPartsL py, containsL "functions".toList (lowerChars part) = false) :
    (appDetect files r).type = "python-functions"
      ∧ (appDetect files r).functions_dir = none
      ∧ (wizDetect files r).type = "python-functions"
      ∧ (wizDetect files r).functions_dir = none := by
  have hp := has_python_of_filter_find? files py hfind
  have hP := pythonStage_some_none (files.foldl scanStep scanInit) py hp
    (by rw [scan_python_files_eq]; exact hfind) (fpp_none _ hseg)
  have hskip : nodeStage (pythonStage (files.foldl scanStep scanInit))
      = pythonStage (files.foldl scanStep scanInit) := by
    refine nodeStage_skip _ ?_
    rw [hP]
    exact noNode_of_no_pkg files hpkg
  have htype : (detectCore files).type = "python-functions" := by
    unfold detectCore
    rw [hskip, hP]
  have hdir : (detectCore files).functions_dir = none := by
    unfold detectCore
    rw [hskip, hP]
    show (files.foldl scanStep scanInit).functions_dir = none
    rw [scanFold_functions_dir]
    rfl
  exact ⟨htype, hdir, htype, hdir⟩

/-! Lemmas about the env-var set accumulator. -/

theorem patFold_cons (c : String) (p : String × List String)
    (ps : List (String × List String)) (acc : List String) :
    patFold c (p :: ps) acc
      = patFold c ps
          (if p.2.any (fun kw => containsStr c kw) then insertNew acc p.1 else acc) := rfl

theorem insertNew_nodup (l : List String) (x : String) (h : l.Nodup) :
    (insertNew l x).Nodup := by
  unfold insertNew
  split
  · exact h
  · next hx => simp [List.nodup_append, h, hx]

theorem mem_insertNew_self (l : List String) (x : String) : x ∈ insertNew l x := by
  unfold insertNew
  split
  · assumption
  · simp

theorem mem_insertNew_of_mem (l : List String) (x v : String) (h : v ∈ l) :
    v ∈ insertNew l x := by
  unfold insertNew
  split
  · exact h
  · simp [h]

theorem insertNew_subset (l : List String) (x v : String) (h : v ∈ insertNew l x) :
    v ∈ l ∨ v = x := by
  unfold insertNew at h
  split at h
  · exact Or.inl h
  · rcases List.mem_append.mp h with h | h
    · exact Or.inl h
    · exact Or.inr (by simpa using h)

theorem patFold_nodup (c : String) (pats : List (String × List String)) :
    ∀ acc : List String, acc.Nodup → (patFold c pats acc).Nodup := by
  induction pats with
  | nil => intro acc h; exact h
  | cons p ps ih =>
    intro acc h
    rw [patFold_cons]
    split
    · exact ih _ (insertNew_nodup _ _ h)
    · exact ih _ h

theorem mem_patFold_of_mem (c : String) (pats : List (String × List String))
    (v : String) : ∀ acc : List String, v ∈ acc → v ∈ patFold c pats acc := by
  induction pats with
  | nil => intro acc h; exact h
  | cons p ps ih =>
    intro acc h
    rw [patFold_cons]
    split
    · exact ih _ (mem_insertNew_of_mem _ _ _ h)
    · exact ih _ h

theorem patFold_subset (c : String) (pats : List (String × List String)) (v : String) :
    ∀ acc : List String, v ∈ patFold c pats acc → v ∈ acc ∨ v ∈ pats.map Prod.fst := by
  induction pats with
  | nil => intro acc h; exact Or.inl h
  | cons p ps ih =>
    intro acc h
    rw [patFold_cons] at h
    have h' := h
    rcases ih _ h' with hacc | hps
    · split at hacc
      · rcases insertNew_subset _ _ _ hacc with h1 | h1
        · exact Or.inl h1
        · exact Or.inr (by simp [h1])
      · exact Or.inl hacc
    · exact Or.inr (by simp [List.mem_cons_of_mem, hps])

theorem mem_patFold_of_match (c : String) (pats : List (String × List String))
    (v : String) (kws : List String) (hmem : (v, kws) ∈ pats)
    (hkw : kws.any (fun kw => containsStr c kw) = true) :
    ∀ acc : List String, v ∈ patFold c pats acc := by
  induction pats with
  | nil => simp at hmem
  | cons p ps ih =>
    intro acc
    rw [patFold_cons]
    rcases List.mem_cons.mp hmem with hp | hp
    · have h2 : p.2.any (fun kw => containsStr c kw) = true := by
        rw [← hp]
        exact hkw
      rw [if_pos h2]
      have hv : v ∈ insertNew acc p.1 := by
        have h1 : p.1 = v := by rw [← hp]
        rw [h1]
        exact mem_insertNew_self _ _
      exact mem_patFold_of_mem _ _ _ _ hv
    · exact ih hp _

theorem envFold_nodup (pats : List (String × List String)) (r : String → Option String)
    (files : List String) :
    ∀ acc : List String, acc.Nodup → (files.foldl (envStep pats r) acc).Nodup := by
  induction files with
  | nil => intro acc h; exact h
  | cons f fs ih =>
    intro acc h
    show (fs.foldl (envStep pats r) (envStep pats r acc f)).Nodup
    refine ih _ ?_
    unfold envStep
    split
    · split
      · exact patFold_nodup _ _ _ h
      · exact h
    · exact h

theorem mem_envFold_of_mem (pats : List (String × List String)) (r : String → Option String)
    (files : List String) (v : String) :
    ∀ acc : List String, v ∈ acc → v ∈ files.foldl (envStep pats r) acc := by
  induction files with
  | nil => intro acc h; exact h
  | cons f fs ih =>
    intro acc h
    show v ∈ fs.foldl (envStep pats r) (envStep pats r acc f)
    refine ih _ ?_
    unfold envStep
    split
    · split
      · exact mem_patFold_of_mem _ _ _ _ h
      · exact h
    · exact h

theorem envFold_subset (pats : List (String × List String)) (r : String → Option String)
    (files : List String) (v : String) :
    ∀ acc : List String, v ∈ files.foldl (envStep pats r) acc →
      v ∈ acc ∨ v ∈ pats.map Prod.fst := by
  induction files with
  | nil => intro acc h; exact Or.inl h
  | cons f fs ih =>
    intro acc h
    have h' : v ∈ fs.foldl (envStep pats r) (envStep pats r acc f) := h
    rcases ih _ h' with hacc | hps
    · unfold envStep at hacc
      split at hacc
      · split at hacc
        · exact patFold_subset _ _ _ _ hacc
        · exact Or.inl hacc
      · exact Or.inl hacc
    · exact Or.inr hps

/-- Witness for C10 at `["netlify/app.py"]`. -/
theorem C10_netlify_only_match_witness :
    (appDetect ["netlify/app.py"] (fun _ => none)).type = "python-functions"
      ∧ (appDetect ["netlify/app.py"] (fun _ => none)).functions_dir = none
      ∧ (wizDetect ["netlify/app.py"] (fun _ => none)).type = "python-functions"
      ∧ (wizDetect ["netlify/app.py"] (fun _ => none)).functions_dir = none :=
  C10_netlify_only_match ["netlify/app.py"] (fun _ => none) "netlify/app.py"
    (by decide) (by decide) (by decide)

/-- C3 counterexample: the two entry points disagree on every generator but
`generate_requirements` — the gitignore templates differ, the manifest's
runtime section differs (`[build.environment] PYTHON_VERSION` versus
`[functions] python_version`), the wizard's env-var scan has an extra
`API_KEY` pattern, and its env-example has an extra `API_KEY` description. -/
theorem C3_entrypoints_counterexample :
    appGenerateGitignore ≠ wizGenerateGitignore
      ∧ appGenerateNetlifyToml "." (some "netlify/functions") none "3.10"
          ≠ wizGenerateNetlifyToml true "." (some "netlify/functions") none "3.10"
      ∧ detectEnvVarsWith appEnvPatterns ["a.py"]
            (fun f => if f = "a.py" then some "api_key" else none)
          ≠ detectEnvVarsWith wizEnvPatterns ["a.py"]
            (fun f => if f = "a.py" then some "api_key" else none)
      ∧ appGenerateEnvExample ["API_KEY"] ≠ wizGenerateEnvExample ["API_KEY"] := by
  refine ⟨by decide, by decide, by decide, by decide⟩

/-- C3 amended: the two entry points share the classification core exactly —
their `detect_project_type` results agree on every field except the inferred
env-var list — and their `generate_requirements` bodies agree on every
input. -/
theorem C3_shared_classifier_core (files : List String) (r : String → Option String) :
    { appDetect files r with env_vars_needed := [] }
        = { wizDetect files r with env_vars_needed := [] }
      ∧ ∀ ev : List String, appGenerateRequirements ev = wizGenerateRequirements ev :=
  ⟨rfl, fun _ => rfl⟩

/-- C8: the inferred env-var set is duplicate-free and drawn from the closed
five-name vocabulary in the web variant and the closed six-name vocabulary
(with `API_KEY`) in the wizard variant; no free-form name can appear. -/
theorem C8_env_vars_closed_vocabulary (files : List String) (r : String → Option String) :
    (appDetect files r).env_vars_needed.Nodup
      ∧ (∀ v ∈ (appDetect files r).env_vars_needed,
          v ∈ ["OPENAI_API_KEY", "GOOGLE_API_KEY", "ANTHROPIC_API_KEY",
               "DATABASE_URL", "SECRET_KEY"])
      ∧ (wizDetect files r).env_vars_needed.Nodup
      ∧ (∀ v ∈ (wizDetect files r).env_vars_needed,
          v ∈ ["OPENAI_API_KEY", "GOOGLE_API_KEY", "ANTHROPIC_API_KEY",
               "DATABASE_URL", "SECRET_KEY", "API_KEY"]) := by
  refine ⟨envFold_nodup _ _ _ _ (by simp), ?_, envFold_nodup _ _ _ _ (by simp), ?_⟩
  · intro v hv
    rcases envFold_subset appEnvPatterns r files v [] hv with h | h
    · simp at h
    · simpa [appEnvPatterns] using h
  · intro v hv
    rcases envFold_subset wizEnvPatterns r files v [] hv with h | h
    · simp at h
    · simpa [wizEnvPatterns] using h

/-- Witness for C8 at a concrete scan whose content mentions `openai`. -/
theorem C8_env_vars_closed_vocabulary_witness :
    List.Nodup (Analysis.env_vars_needed
        (appDetect ["a.py"] (fun f => if f = "a.py" then some "uses openai" else none)))
      ∧ "OPENAI_API_KEY"
          ∈ ["OPENAI_API_KEY", "GOOGLE_API_KEY", "ANTHROPIC_API_KEY",
             "DATABASE_URL", "SECRET_KEY"] :=
  ⟨(C8_env_vars_closed_vocabulary ["a.py"]
      (fun f => if f = "a.py" then some "uses openai" else none)).1,
   (C8_env_vars_closed_vocabulary ["a.py"]
      (fun f => if f = "a.py" then some "uses openai" else none)).2.1
     "OPENAI_API_KEY" (by decide)⟩

/-- C9: a readable source-extension file whose content contains `openai` in
any letter case forces `OPENAI_API_KEY` into the inferred env-var set of both
entry points. -/
theorem C9_openai_keyword (files : List String) (r : String → Option String)
    (f c : String) (hf : f ∈ files) (hext : srcExtB f = true) (hr : r f = some c)
    (hop : containsStr (lowerStr c) "openai" = true) :
    "OPENAI_API_KEY" ∈ (appDetect files r).env_vars_needed
      ∧ "OPENAI_API_KEY" ∈ (wizDetect files r).env_vars_needed := by
  obtain ⟨l₁, l₂, rfl⟩ := List.append_of_mem hf
  have hkey : ∀ pats : List (String × List String),
      ("OPENAI_API_KEY", ["openai", "gpt", "chatgpt"]) ∈ pats →
      "OPENAI_API_KEY" ∈ ((l₁ ++ f :: l₂).foldl (envStep pats r) []) := by
    intro pats hpat
    rw [List.foldl_append, List.foldl_cons]
    have hstep : envStep pats r ((l₁.foldl (envStep pats r)) []) f
        = patFold (lowerStr c) pats ((l₁.foldl (envStep pats r)) []) := by
      unfold envStep
      rw [if_pos hext, hr]
    rw [hstep]
    refine mem_envFold_of_mem _ _ _ _ _ ?_
    refine mem_patFold_of_match _ _ _ ["openai", "gpt", "chatgpt"] hpat ?_ _
    exact List.any_eq_true.mpr ⟨"openai", by simp, hop⟩
  exact ⟨hkey appEnvPatterns (by simp [appEnvPatterns]),
         hkey wizEnvPatterns (by simp [wizEnvPatterns])⟩

/-- Witness for C9 at the spec's scenario: a python file mentioning OpenAI. -/
theorem C9_openai_keyword_witness :
    "OPENAI_API_KEY"
        ∈ (appDetect ["a.py"]
            (fun f => if f = "a.py" then some "import OpenAI" else none)).env_vars_needed
      ∧ "OPENAI_API_KEY"
        ∈ (wizDetect ["a.py"]
            (fun f => if f = "a.py" then some "import OpenAI" else none)).env_vars_needed :=
  C9_openai_keyword ["a.py"] (fun f => if f = "a.py" then some "import OpenAI" else none)
    "a.py" "import OpenAI" (by decide) (by decide) (by decide) (by decide)

/-! Lemmas relating `'\n'.join` and `split('\n')` for the generated
artifacts. -/

theorem strToList_append (s t : String) : (s ++ t).toList = s.toList ++ t.toList :=
  String.data_append s t

theorem splitOnChar_cons_sep (sep : Char) (r : List Char) :
    splitOnChar sep (sep :: r) = [] :: splitOnChar sep r := by
  simp [splitOnChar]

theorem splitOnChar_ne_nil (sep : Char) (l : List Char) : splitOnChar sep l ≠ [] := by
  cases l with
  | nil => simp [splitOnChar]
  | cons c r =>
    by_cases h : c = sep
    · simp [splitOnChar, h]
    · simp only [splitOnChar, h, if_false]
      cases splitOnChar sep r <;> simp

theorem splitOnChar_append_sep (sep : Char) (a r : List Char) (h : sep ∉ a) :
    splitOnChar sep (a ++ sep :: r) = a :: splitOnChar sep r := by
  induction a with
  | nil => simp [splitOnChar_cons_sep]
  | cons c a' ih =>
    have hc : ¬ c = sep := fun hc => h (hc ▸ List.mem_cons_self c a')
    have ha' : sep ∉ a' := fun ha => h (List.mem_cons_of_mem _ ha)
    rw [List.cons_append]
    simp only [splitOnChar, hc, if_false]
    rw [ih ha']

theorem splitOnChar_no_sep (sep : Char) (a : List Char) (h : sep ∉ a) :
    splitOnChar sep a = [a] := by
  induction a with
  | nil => rfl
  | cons c a' ih =>
    have hc : ¬ c = sep := fun hc => h (hc ▸ List.mem_cons_self c a')
    have ha' : sep ∉ a' := fun ha => h (List.mem_cons_of_mem _ ha)
    simp only [splitOnChar, hc, if_false]
    rw [ih ha']

theorem splitOnChar_joinNl (L : List (List Char)) (hL : L ≠ [])
    (h : ∀ l ∈ L, '\n' ∉ l) :
    splitOnChar '\n' (joinNl L ++ ['\n']) = L ++ [[]] := by
  induction L with
  | nil => exact absurd rfl hL
  | cons a rest ih =>
    cases rest with
    | nil =>
      show splitOnChar '\n' (a ++ '\n' :: []) = [a, []]
      rw [splitOnChar_append_sep _ _ _ (h a (List.mem_cons_self a []))]
      rfl
    | cons b bs =>
      have hjoin : joinNl (a :: b :: bs) = a ++ '\n' :: joinNl (b :: bs) := rfl
      rw [hjoin, List.append_assoc, List.cons_append]
      rw [splitOnChar_append_sep '\n' a (joinNl (b :: bs) ++ ['\n'])
        (h a (List.mem_cons_self a (b :: bs)))]
      rw [ih (by simp) (fun l hl => h l (List.mem_cons_of_mem _ hl))]
      rfl

theorem linesOf_joinLines (L : List String) (hL : L ≠ [])
    (h : ∀ l ∈ L, '\n' ∉ l.toList) :
    linesOfStr (joinLinesNl L ++ "\n") = L.map String.toList ++ [[]] := by
  unfold linesOfStr joinLinesNl
  rw [strToList_append]
  show splitOnChar '\n' (joinNl (L.map String.toList) ++ ['\n']) = _
  refine splitOnChar_joinNl _ (by simpa using hL) ?_
  intro l hl
  obtain ⟨s, hs, rfl⟩ := List.mem_map.mp hl
  exact h s hs

/-- Counting lines of a rendered artifact reduces to counting over the
line list, provided no line embeds a newline and the target is nonempty. -/
theorem lineCount_joinLines (L : List String) (t : String) (hL : L ≠ [])
    (h : ∀ l ∈ L, '\n' ∉ l.toList) (ht : t.toList ≠ []) :
    lineCount (joinLinesNl L ++ "\n") t = (L.map String.toList).count t.toList := by
  unfold lineCount
  rw [linesOf_joinLines L hL h, List.count_append]
  have hz : List.count t.toList [([] : List Char)] = 0 := by
    rw [List.count_cons, List.count_nil]
    have hb : (([] : List Char) == t.toList) = false := by
      cases hcl : t.toList with
      | nil => exact absurd hcl ht
      | cons c cs => rfl
    simp [hb]
    exact ht
  rw [hz, Nat.add_zero]

/-- Character-list inequality by a mismatch inside a known prefix: used to
show the functions line can never equal a redirect-block line, whatever the
directory string. -/
theorem beq_false_of_append_mismatch (pre x t : List Char) (i : Nat)
    (hpre : i < pre.length) (ht : i < t.length) (hne : pre[i] ≠ t[i]) :
    ((pre ++ x) == t) = false := by
  cases hb : ((pre ++ x) == t) with
  | false => rfl
  | true =>
    exfalso
    have heq : pre ++ x = t := eq_of_beq hb
    subst heq
    have h1 : (pre ++ x)[i] = pre[i] := List.getElem_append_left hpre
    exact hne h1.symm

/-- C5 counterexample: `generate_netlify_toml` keys the redirect block on
Python truthiness, not on `None`-ness — the non-`None` empty directory
produces no redirect block at all — and a directory string embedding a
newline can forge a second block header, so the claim fails as stated over
every functions_dir argument. -/
theorem C5_redirect_counterexample :
    lineCount (appGenerateNetlifyToml "." (some "") none "3.10") "[[redirects]]" = 0
      ∧ lineCount (appGenerateNetlifyToml "." (some "x\n[[redirects]]\ny") none "3.10")
          "[[redirects]]" = 2 := by
  refine ⟨by decide, by decide⟩

/-- C5 amended: for every nonempty, newline-free functions directory the
generated manifest contains exactly one redirect block header with exactly one
`/api/*` source line, one platform-function target line and one `status = 200`
line (web variant; the wizard variant likewise has exactly one block header
and source line, for either value of its `has_python` flag); with no functions
directory there is no redirect block and no runtime-version section in either
variant. -/
theorem C5_redirect_block (d : String) (hp : Bool) (hd : d ≠ "")
    (hnd : '\n' ∉ d.toList) :
    lineCount (appGenerateNetlifyToml "." (some d) none "3.10") "[[redirects]]" = 1
      ∧ lineCount (appGenerateNetlifyToml "." (some d) none "3.10") "  from = \"/api/*\"" = 1
      ∧ lineCount (appGenerateNetlifyToml "." (some d) none "3.10")
          "  to = \"/.netlify/functions/:splat\"" = 1
      ∧ lineCount (appGenerateNetlifyToml "." (some d) none "3.10") "  status = 200" = 1
      ∧ lineCount (wizGenerateNetlifyToml hp "." (some d) none "3.10") "[[redirects]]" = 1
      ∧ lineCount (wizGenerateNetlifyToml hp "." (some d) none "3.10")
          "  from = \"/api/*\"" = 1
      ∧ lineCount (appGenerateNetlifyToml "." none none "3.10") "[[redirects]]" = 0
      ∧ lineCount (appGenerateNetlifyToml "." none none "3.10") "[build.environment]" = 0
      ∧ lineCount (wizGenerateNetlifyToml hp "." none none "3.10") "[[redirects]]" = 0
      ∧ lineCount (wizGenerateNetlifyToml hp "." none none "3.10") "[functions]" = 0 := by
  have hfc_shape : ("  functions = \"" ++ d ++ "\"").toList
      = "  functions = \"".toList ++ (d.toList ++ "\"".toList) := by
    rw [strToList_append, strToList_append, List.append_assoc]
  have hfn : '\n' ∉ ("  functions = \"" ++ d ++ "\"").toList := by
    rw [hfc_shape]
    intro hmem
    rcases List.mem_append.mp hmem with h1 | h2
    · exact absurd h1 (by decide)
    · rcases List.mem_append.mp h2 with h3 | h4
      · exact hnd h3
      · exact absurd h4 (by decide)
  have hfc_red : (("  functions = \"" ++ d ++ "\"").toList == "[[redirects]]".toList)
      = false := by
    rw [hfc_shape]
    exact beq_false_of_append_mismatch _ _ _ 0 (by decide) (by decide) (by decide)
  have hfc_from : (("  functions = \"" ++ d ++ "\"").toList
      == "  from = \"/api/*\"".toList) = false := by
    rw [hfc_shape]
    exact beq_false_of_append_mismatch _ _ _ 3 (by decide) (by decide) (by decide)
  have hfc_to : (("  functions = \"" ++ d ++ "\"").toList
      == "  to = \"/.netlify/functions/:splat\"".toList) = false := by
    rw [hfc_shape]
    exact beq_false_of_append_mismatch _ _ _ 2 (by decide) (by decide) (by decide)
  have hfc_status : (("  functions = \"" ++ d ++ "\"").toList
      == "  status = 200".toList) = false := by
    rw [hfc_shape]
    exact beq_false_of_append_mismatch _ _ _ 2 (by decide) (by decide) (by decide)
  have happ : appGenerateNetlifyToml "." (some d) none "3.10"
      = joinLinesNl ["[build]", "  functions = \"" ++ d ++ "\"", "  publish = \".\"", "",
          "[build.environment]", "  PYTHON_VERSION = \"3.10\"", "", "[[redirects]]",
          "  from = \"/api/*\"", "  to = \"/.netlify/functions/:splat\"",
          "  status = 200"] ++ "\n" := by
    simp [appGenerateNetlifyToml, orEmpty, strTruthy, hd]
  have hnlA : ∀ l ∈ ["[build]", "  functions = \"" ++ d ++ "\"", "  publish = \".\"", "",
          "[build.environment]", "  PYTHON_VERSION = \"3.10\"", "", "[[redirects]]",
          "  from = \"/api/*\"", "  to = \"/.netlify/functions/:splat\"",
          "  status = 200"], '\n' ∉ l.toList := by
    intro l hl
    fin_cases hl
    · decide
    · exact hfn
    all_goals decide
  refine ⟨?_, ?_, ?_, ?_, ?_, ?_, by decide, by decide, ?_, ?_⟩
  · rw [happ, lineCount_joinLines _ _ (by simp) hnlA (by decide)]
    simp [List.count_cons, hfc_red]
  · rw [happ, lineCount_joinLines _ _ (by simp) hnlA (by decide)]
    simp [List.count_cons, hfc_from]
  · rw [happ, lineCount_joinLines _ _ (by simp) hnlA (by decide)]
    simp [List.count_cons, hfc_to]
  · rw [happ, lineCount_joinLines _ _ (by simp) hnlA (by decide)]
    simp [List.count_cons, hfc_status]
  · cases hp with
    | true =>
      have hwiz : wizGenerateNetlifyToml true "." (some d) none "3.10"
          = joinLinesNl ["[build]", "  functions = \"" ++ d ++ "\"", "  publish = \".\"",
              "", "[functions]", "  python_version = \"3.10\"", "", "[[redirects]]",
              "  from = \"/api/*\"", "  to = \"/.netlify/functions/:splat\"",
              "  status = 200"] ++ "\n" := by
        simp [wizGenerateNetlifyToml, orEmpty, strTruthy, hd]
      have hnlW : ∀ l ∈ ["[build]", "  functions = \"" ++ d ++ "\"", "  publish = \".\"",
              "", "[functions]", "  python_version = \"3.10\"", "", "[[redirects]]",
              "  from = \"/api/*\"", "  to = \"/.netlify/functions/:splat\"",
              "  status = 200"], '\n' ∉ l.toList := by
        intro l hl
        fin_cases hl
        · decide
        · exact hfn
        all_goals decide
      rw [hwiz, lineCount_joinLines _ _ (by simp) hnlW (by decide)]
      simp [List.count_cons, hfc_red]
    | false =>
      have hwiz : wizGenerateNetlifyToml false "." (some d) none "3.10"
          = joinLinesNl ["[build]", "  functions = \"" ++ d ++ "\"", "  publish = \".\"",
              "", "[[redirects]]", "  from = \"/api/*\"",
              "  to = \"/.netlify/functions/:splat\"", "  status = 200"] ++ "\n" := by
        simp [wizGenerateNetlifyToml, orEmpty, strTruthy, hd]
      have hnlW : ∀ l ∈ ["[build]", "  functions = \"" ++ d ++ "\"", "  publish = \".\"",
              "", "[[redirects]]", "  from = \"/api/*\"",
              "  to = \"/.netlify/functions/:splat\"", "  status = 200"],
            '\n' ∉ l.toList := by
        intro l hl
        fin_cases hl
        · decide
        · exact hfn
        all_goals decide
      rw [hwiz, lineCount_joinLines _ _ (by simp) hnlW (by decide)]
      simp [List.count_cons, hfc_red]
  · cases hp with
    | true =>
      have hwiz : wizGenerateNetlifyToml true "." (some d) none "3.10"
          = joinLinesNl ["[build]", "  functions = \"" ++ d ++ "\"", "  publish = \".\"",
              "", "[functions]", "  python_version = \"3.10\"", "", "[[redirects]]",
              "  from = \"/api/*\"", "  to = \"/.netlify/functions/:splat\"",
              "  status = 200"] ++ "\n" := by
        simp [wizGenerateNetlifyToml, orEmpty, strTruthy, hd]
      have hnlW : ∀ l ∈ ["[build]", "  functions = \"" ++ d ++ "\"", "  publish = \".\"",
              "", "[functions]", "  python_version = \"3.10\"", "", "[[redirects]]",
              "  from = \"/api/*\"", "  to = \"/.netlify/functions/:splat\"",
              "  status = 200"], '\n' ∉ l.toList := by
        intro l hl
        fin_cases hl
        · decide
        · exact hfn
        all_goals decide
      rw [hwiz, lineCount_joinLines _ _ (by simp) hnlW (by decide)]
      simp [List.count_cons, hfc_from]
    | false =>
      have hwiz : wizGenerateNetlifyToml false "." (some d) none "3.10"
          = joinLinesNl ["[build]", "  functions = \"" ++ d ++ "\"", "  publish = \".\"",
              "", "[[redirects]]", "  from = \"/api/*\"",
              "  to = \"/.netlify/functions/:splat\"", "  status = 200"] ++ "\n" := by
        simp [wizGenerateNetlifyToml, orEmpty, strTruthy, hd]
      have hnlW : ∀ l ∈ ["[build]", "  functions = \"" ++ d ++ "\"", "  publish = \".\"",
              "", "[[redirects]]", "  from = \"/api/*\"",
              "  to = \"/.netlify/functions/:splat\"", "  status = 200"],
            '\n' ∉ l.toList := by
        intro l hl
        fin_cases hl
        · decide
        · exact hfn
        all_goals decide
      rw [hwiz, lineCount_joinLines _ _ (by simp) hnlW (by decide)]
      simp [List.count_cons, hfc_from]
  · cases hp <;> decide
  · cases hp <;> decide

/-- Witness for the amended C5 at the directory `netlify/functions`. -/
theorem C5_redirect_block_witness :
    lineCount (appGenerateNetlifyToml "." (some "netlify/functions") none "3.10")
        "[[redirects]]" = 1
      ∧ lineCount (appGenerateNetlifyToml "." (some "netlify/functions") none "3.10")
          "  from = \"/api/*\"" = 1
      ∧ lineCount (appGenerateNetlifyToml "." (some "netlify/functions") none "3.10")
          "  to = \"/.netlify/functions/:splat\"" = 1
      ∧ lineCount (appGenerateNetlifyToml "." (some "netlify/functions") none "3.10")
          "  status = 200" = 1
      ∧ lineCount (wizGenerateNetlifyToml true "." (some "netlify/functions") none "3.10")
          "[[redirects]]" = 1
      ∧ lineCount (wizGenerateNetlifyToml true "." (some "netlify/functions") none "3.10")
          "  from = \"/api/*\"" = 1
      ∧ lineCount (appGenerateNetlifyToml "." none none "3.10") "[[redirects]]" = 0
      ∧ lineCount (appGenerateNetlifyToml "." none none "3.10") "[build.environment]" = 0
      ∧ lineCount (wizGenerateNetlifyToml true "." none none "3.10") "[[redirects]]" = 0
      ∧ lineCount (wizGenerateNetlifyToml true "." none none "3.10") "[functions]" = 0 :=
  C5_redirect_block "netlify/functions" true (by decide) (by decide)

/-- C7 counterexample: for a missing root (here with a nonempty hypothetical
walk, which `os.walk` would never produce), `scan_files` raises nothing and
silently returns the empty file list — there is no `InvalidPathError` anywhere
in `scan_files`. -/
theorem C7_scan_counterexample :
    scanFiles ⟨"/missing", false, true, ["index.html"], fun _ => none⟩ = [] := rfl

/-- C7 amended: the missing/non-directory rejection lives in the callers, not
in `scan_files`: the web `/api/analyze` route and the wizard `main` both fail
with a structured error before any analysis, and the route's answer is then
independent of whatever the walk would have produced. -/
theorem C7_invalid_root_rejected (fs : FileSystem) (w : List String)
    (h : fs.rootExists = false ∨ fs.rootIsDir = false) :
    exceptIsOk (appAnalyzeRoute fs) = false
      ∧ exceptIsOk (wizPathCheck fs) = false
      ∧ appAnalyzeRoute { fs with walk := w } = appAnalyzeRoute fs := by
  rcases h with h | h
  · simp [appAnalyzeRoute, wizPathCheck, exceptIsOk, h]
  · by_cases he : fs.rootExists <;>
      simp [appAnalyzeRoute, wizPathCheck, exceptIsOk, h, he]

/-- Witness for the amended C7 at a missing root. -/
theorem C7_invalid_root_rejected_witness :
    exceptIsOk (appAnalyzeRoute ⟨"/missing", false, true, ["index.html"], fun _ => none⟩)
        = false
      ∧ exceptIsOk (wizPathCheck ⟨"/missing", false, true, ["index.html"], fun _ => none⟩)
        = false
      ∧ appAnalyzeRoute
          { (⟨"/missing", false, true, ["index.html"], fun _ => none⟩ : FileSystem) with
            walk := [] }
        = appAnalyzeRoute ⟨"/missing", false, true, ["index.html"], fun _ => none⟩ :=
  C7_invalid_root_rejected ⟨"/missing", false, true, ["index.html"], fun _ => none⟩ []
    (Or.inl rfl)

/-- Witness for C1 at the spec's own scenario `["package.json", "api/main.py"]`. -/
theorem C1_package_json_forces_node_witness :
    (appDetect ["package.json", "api/main.py"] (fun _ => none)).type = "node-project"
      ∧ (appDetect ["package.json", "api/main.py"] (fun _ => none)).build_command
          = some "npm run build"
      ∧ (wizDetect ["package.json", "api/main.py"] (fun _ => none)).type = "node-project"
      ∧ (wizDetect ["package.json", "api/main.py"] (fun _ => none)).build_command
          = some "npm run build" :=
  C1_package_json_forces_node ["package.json", "api/main.py"] (fun _ => none)
    ⟨"package.json", by decide, by decide⟩


theorem splitWsAcc_eq_nil (l : List Char) :
    ∀ cur, splitWsAcc cur l = [] → cur = [] ∧ ∀ c ∈ l, isWsC c = true := by
  induction l with
  | nil =>
    intro cur h
    by_cases hc : cur = []
    · exact ⟨hc, by simp⟩
    · simp [splitWsAcc, hc] at h
  | cons c rest ih =>
    intro cur h
    by_cases hw : isWsC c
    · by_cases hc : cur = []
      · rw [hc] at h
        have h' : splitWsAcc [] rest = [] := by simpa [splitWsAcc, hw] using h
        obtain ⟨-, hall⟩ := ih [] h'
        refine ⟨hc, ?_⟩
        intro x hx
        rcases List.mem_cons.mp hx with rfl | hx
        · exact hw
        · exact hall x hx
      · simp [splitWsAcc, hw, hc] at h
    · have hw' : isWsC c = false := by simpa using hw
      have h' : splitWsAcc (c :: cur) rest = [] := by simpa [splitWsAcc, hw'] using h
      obtain ⟨habs, -⟩ := ih _ h'
      simp at habs

theorem ws_toLower_self (c : Char) (h : isWsC c = true) : c.toLower = c := by
  unfold isWsC at h
  simp only [Bool.or_eq_true, beq_iff_eq] at h
  rcases h with ((((h | h) | h) | h) | h) | h <;> subst h <;> decide

theorem exists_of_containsL (pat l : List Char) (h : containsL pat l = true) :
    ∃ a b, l = a ++ pat ++ b := by
  induction l with
  | nil =>
    refine ⟨[], [], ?_⟩
    have hp : pat.isEmpty = true := h
    rw [List.isEmpty_iff] at hp
    simp [hp]
  | cons c rest ih =>
    simp only [containsL, Bool.or_eq_true] at h
    rcases h with h | h
    · have hpfx : pat <+: c :: rest := by
        rw [← List.isPrefixOf_iff_prefix]
        exact h
      obtain ⟨t, ht⟩ := hpfx
      exact ⟨[], t, by simp [← ht]⟩
    · obtain ⟨a, b, hab⟩ := ih h
      exact ⟨c :: a, b, by simp [hab]⟩

theorem mem_of_containsL (pat l : List Char) (c : Char) (h : containsL pat l = true)
    (hc : c ∈ pat) : c ∈ l := by
  obtain ⟨a, b, rfl⟩ := exists_of_containsL pat l h
  simp [hc]

theorem splitWs_ne_nil_of_contains (l pat : List Char)
    (h : containsL pat (lowerChars l) = true) (hne : pat ≠ [])
    (hws : ∀ c ∈ pat, isWsC c = false) : splitWs l ≠ [] := by
  intro hnil
  obtain ⟨-, hall⟩ := splitWsAcc_eq_nil l [] hnil
  have hlow : lowerChars l = l := by
    unfold lowerChars
    have hfix : ∀ c ∈ l, c.toLower = c := fun c hc => ws_toLower_self c (hall c hc)
    rw [List.map_congr_left hfix]
    simp
  cases pat with
  | nil => exact hne rfl
  | cons p ps =>
    have hp : p ∈ l := by
      have hm := mem_of_containsL _ _ p h (List.mem_cons_self p ps)
      rwa [hlow] at hm
    have h1 := hall p hp
    have h2 := hws p (List.mem_cons_self p ps)
    rw [h1] at h2
    exact absurd h2 (by simp)

theorem urlStep_mono (s : Option String × Option String) (line : List Char)
    (h : s.1.isSome = true ∨ s.2.isSome = true) :
    (urlStep s line).1.isSome = true ∨ (urlStep s line).2.isSome = true := by
  unfold urlStep
  split
  · split
    · exact h
    · left; simp
  · split
    · split
      · exact h
      · rcases h with h | h
        · left; exact h
        · right; simp
    · split
      · split
        · left; simp
        · exact h
      · exact h

theorem urlStep_sets (s : Option String × Option String) (line : List Char)
    (h : recognizedB line = true) :
    (urlStep s line).1.isSome = true ∨ (urlStep s line).2.isSome = true := by
  unfold recognizedB at h
  by_cases h1 : (containsL "website".toList (lowerChars line)
      && containsL "url".toList (lowerChars line)) = true
  · have hws : splitWs line ≠ [] := by
      refine splitWs_ne_nil_of_contains line "website".toList ?_ (by decide) (by decide)
      exact (Bool.and_eq_true_iff.mp h1).1
    unfold urlStep
    rw [if_pos h1]
    cases hsp : splitWs line with
    | nil => exact absurd hsp hws
    | cons t ts => left; simp
  · by_cases h2 : (containsL "deploy".toList (lowerChars line)
        && containsL "url".toList (lowerChars line)) = true
    · have hws : splitWs line ≠ [] := by
        refine splitWs_ne_nil_of_contains line "deploy".toList ?_ (by decide) (by decide)
        exact (Bool.and_eq_true_iff.mp h2).1
      unfold urlStep
      rw [if_neg h1, if_pos h2]
      cases hsp : splitWs line with
      | nil => exact absurd hsp hws
      | cons t ts => right; simp
    · have h3 : (containsL "https://".toList line && containsL "netlify".toList line
          && (findNetlifyUrl line).isSome) = true := by
        rcases Bool.or_eq_true_iff.mp h with h' | h'
        · rcases Bool.or_eq_true_iff.mp h' with h'' | h''
          · exact absurd h'' h1
          · exact absurd h'' h2
        · exact h'
      have hg : (containsL "https://".toList line && containsL "netlify".toList line)
          = true := (Bool.and_eq_true_iff.mp h3).1
      have hfu : (findNetlifyUrl line).isSome = true := (Bool.and_eq_true_iff.mp h3).2
      unfold urlStep
      rw [if_neg h1, if_neg h2, if_pos hg]
      cases hfl : findNetlifyUrl line with
      | none => rw [hfl] at hfu; exact absurd hfu (by simp)
      | some u => left; simp

theorem urlFold_some (lines : List (List Char)) :
    ∀ s : Option String × Option String,
      ((s.1.isSome = true ∨ s.2.isSome = true)
        ∨ ∃ line ∈ lines, recognizedB line = true) →
      ((lines.foldl urlStep s).1.isSome = true
        ∨ (lines.foldl urlStep s).2.isSome = true) := by
  induction lines with
  | nil =>
    intro s h
    rcases h with h | ⟨line, hmem, -⟩
    · exact h
    · simp at hmem
  | cons l ls ih =>
    intro s h
    rw [List.foldl_cons]
    refine ih _ ?_
    rcases h with h | ⟨line, hmem, hrec⟩
    · exact Or.inl (urlStep_mono s l h)
    · rcases List.mem_cons.mp hmem with rfl | hmem'
      · exact Or.inl (urlStep_sets s line hrec)
      · exact Or.inr ⟨line, hmem', hrec⟩


/-- C6 counterexample: the line `https://netlify.app` is an `https://` URL
containing `netlify`, yet the extraction regex `https://[^\s]+netlify[^\s]*`
requires at least one character between the scheme and `netlify`, so nothing
is extracted and a non-zero exit code is reported as failure; and the wizard's
`deploy_preview` never applies the URL heuristic at all when the exit code is
non-zero, even on a perfect draft-URL line. -/
theorem C6_deploy_counterexample :
    containsL "https://".toList "https://netlify.app".toList = true
      ∧ containsL "netlify".toList "https://netlify.app".toList = true
      ∧ deployOutcome ⟨false, "https://netlify.app", ""⟩ = (false, none)
      ∧ wizDeployPreview ⟨false, "Website Draft URL: https://x.netlify.app", ""⟩
          = none := by
  refine ⟨by decide, by decide, by decide, rfl⟩

/-- C6 amended: the web `/api/deploy` route reports success with an extracted
URL whenever the combined stdout+stderr has a line the extraction loop
actually recognises — a `website`/`deploy` plus `url` phrase line, or an
`https://` URL with at least one character between the scheme and `netlify` —
regardless of the declared exit code and of any stderr content; the wizard's
`deploy_preview`, in contrast, returns no URL whenever the exit code is
non-zero. -/
theorem C6_deploy_success_heuristic :
    (∀ res : DeployResult,
      (∃ line ∈ splitOnChar '\n' (res.stdout ++ "\n" ++ res.stderr).toList,
          recognizedB line = true) →
        (deployOutcome res).1 = true ∧ (deployOutcome res).2.isSome = true)
    ∧ (∀ res : DeployResult, res.success = false → wizDeployPreview res = none) := by
  constructor
  · intro res h
    have hfold := urlFold_some (splitOnChar '\n' (res.stdout ++ "\n" ++ res.stderr).toList)
      (none, none) (Or.inr h)
    set F := (splitOnChar '\n' (res.stdout ++ "\n" ++ res.stderr).toList).foldl urlStep
      ((none : Option String), (none : Option String)) with hF
    have hfin : (F.1 <|> F.2).isSome = true := by
      cases hu : F.1 with
      | some u => simp
      | none =>
        rcases hfold with hl | hr
        · rw [hu] at hl; simp at hl
        · simp [hr]
    constructor
    · show (deployOutcome res).1 = true
      simp only [deployOutcome]
      rw [← hF]
      simp [hfin]
    · show ((deployOutcome res).2).isSome = true
      simp only [deployOutcome]
      rw [← hF]
      exact hfin
  · intro res h
    unfold wizDeployPreview
    rw [h]
    simp

/-- Witness for the amended C6: a failing exit code with a noisy warning and a
website-URL line is still reported as a success with a URL by the route, while
the wizard rejects the same failing exit code. -/
theorem C6_deploy_success_heuristic_witness :
    ((deployOutcome
        ⟨false, "Website URL: https://demo.netlify.app", "unsettled top-level await"⟩).1
          = true
      ∧ (deployOutcome
        ⟨false, "Website URL: https://demo.netlify.app", "unsettled top-level await"⟩).2.isSome
          = true)
    ∧ wizDeployPreview ⟨false, "Website Draft URL: https://demo.netlify.app", ""⟩
        = none :=
  ⟨C6_deploy_success_heuristic.1
      ⟨false, "Website URL: https://demo.netlify.app", "unsettled top-level await"⟩
      (by decide),
   C6_deploy_success_heuristic.2
      ⟨false, "Website Draft URL: https://demo.netlify.app", ""⟩ rfl⟩

end NetlifyAI
